import Mathlib

/-!
Shallow embedding of the Shipping Tracker backend (server/index.js of the
repository): JSON-file store of users and shipments, with the request
handlers for register, shipment creation, public tracking lookup,
listing a user's shipments, and status advancement.

Nondeterministic external inputs of the JS code (nanoid-generated ids and
tracking codes, bcrypt hashes, `new Date().toISOString()` timestamps) are
passed to the embedded operations as explicit arguments.  Handlers that
write the store return the store they leave behind together with the HTTP
response (`Except ApiError result`); an error response leaves the store
unchanged, exactly as the JS handlers return before calling `db.write()`.
-/

namespace ShippingTracker

/-- JavaScript `String.prototype.toUpperCase` restricted to the ASCII
strings this program feeds it (tracking codes over the nanoid alphabet). -/
def jsToUpperCase (s : String) : String :=
  String.mk (s.data.map Char.toUpper)

/-- JavaScript `String.prototype.toLowerCase` restricted to ASCII strings
(emails are compared through it). -/
def jsToLowerCase (s : String) : String :=
  String.mk (s.data.map Char.toLower)

/-- One entry of a shipment's `history` array: `{ status, at }`; the
timestamp field is written `at_` because `at` is reserved in Lean. -/
structure HistoryEntry where
  status : String
  at_ : String
deriving Repr, DecidableEq, Inhabited

/-- A shipment record as stored in `db.data.shipments`. -/
structure Shipment where
  id : String
  tracking : String
  createdAt : String
  status : String
  service : String
  weight : String
  toName : String
  toAddress : String
  history : List HistoryEntry
  owner : String
deriving Repr, DecidableEq, Inhabited

/-- A user record as stored in `db.data.users`. -/
structure User where
  id : String
  name : String
  email : String
  password : String
deriving Repr, DecidableEq, Inhabited

/-- The persisted document `db.data`: `{ users: [], shipments: [] }`. -/
structure Store where
  users : List User
  shipments : List Shipment
deriving Repr, DecidableEq, Inhabited

/-- The error responses the handlers produce: HTTP 400 with a message,
HTTP 404 `Not found`, HTTP 401 with a message. -/
inductive ApiError where
  | badRequest (msg : String)
  | notFound
  | unauthorized (msg : String)
deriving Repr, DecidableEq

/-- The `nextStatuses` array of the advance handler. -/
def nextStatuses : List String :=
  ["Label Created", "Picked Up", "In Transit", "Out for Delivery", "Delivered"]

/-- JavaScript `Array.prototype.indexOf` on an array of strings: the index
of the first occurrence, `-1` when absent. -/
def jsIndexOf (l : List String) (x : String) : Int :=
  match l.findIdx? (fun y => y == x) with
  | some i => (i : Int)
  | none => -1

/-- The `next` computed by the advance handler from the current status:
`curIndex = nextStatuses.indexOf(s.status)`,
`next = nextStatuses[Math.min(curIndex + 1, nextStatuses.length - 1)]`. -/
def nextStatus (cur : String) : String :=
  let curIndex : Int := jsIndexOf nextStatuses cur
  nextStatuses.getD (min (curIndex + 1) ((nextStatuses.length : Int) - 1)).toNat ""

/-- The body of the advance handler applied to the found shipment `s`:
`s.status = next; s.history.push({ status: next, at })`. -/
def advanceShipment (at_ : String) (s : Shipment) : Shipment :=
  { s with
    status := nextStatus s.status
    history := s.history ++ [⟨nextStatus s.status, at_⟩] }

/-- `db.data.shipments.find(x => x.tracking === key)` followed by the
in-place mutation of the found record: returns the updated array together
with the updated shipment, or `none` when no tracking code matches.
`key` is the already-uppercased tracking code. -/
def advanceInList (key at_ : String) : List Shipment → Option (List Shipment × Shipment)
  | [] => none
  | s :: rest =>
    if s.tracking == key then
      let s1 := advanceShipment at_ s
      some (s1 :: rest, s1)
    else
      match advanceInList key at_ rest with
      | none => none
      | some (rest1, s1) => some (s :: rest1, s1)

/-- Handler `POST /api/shipments/:tracking/advance` (public): uppercases
the supplied code, finds the shipment, advances its status one step
(clamped at the last stage), appends a history entry and persists;
404 when no shipment matches. -/
def advance (tracking at_ : String) (st : Store) : Store × Except ApiError Shipment :=
  match advanceInList (jsToUpperCase tracking) at_ st.shipments with
  | none => (st, .error .notFound)
  | some (ships1, s1) => ({ st with shipments := ships1 }, .ok s1)

/-- Handler `GET /api/shipments/:tracking` (public): uppercases the
supplied code and returns the first shipment whose tracking code equals
it, 404 otherwise.  The handler never writes the store. -/
def lookup (tracking : String) (st : Store) : Except ApiError Shipment :=
  match st.shipments.find? (fun x => x.tracking == jsToUpperCase tracking) with
  | none => .error .notFound
  | some s => .ok s

/-- Handler `GET /api/my-shipments` (authenticated): all shipments whose
`owner` equals the requesting user's id, in storage order. -/
def listForOwner (uid : String) (st : Store) : List Shipment :=
  st.shipments.filter (fun s => s.owner == uid)

/-- Handler `POST /api/shipments` (authenticated).  `ownerId` is
`req.user.id` from the verified token; `genId` and `genTracking` are the
`nanoid()` and `nanoid(10)` outputs; `now` is the ISO timestamp.  Absent
body fields are the empty string (the only falsy string). -/
def createShipment (ownerId toName toAddress weight service : String)
    (genId genTracking now : String) (st : Store) :
    Store × Except ApiError Shipment :=
  if toName = "" ∨ toAddress = "" then
    (st, .error (.badRequest "toName & toAddress required"))
  else
    let tracking := jsToUpperCase genTracking
    let shipment : Shipment :=
      { id := genId
        tracking := tracking
        createdAt := now
        status := "Label Created"
        service := if service = "" then "Ground" else service
        weight := if weight = "" then "0.0" else weight
        toName := toName
        toAddress := toAddress
        history := [⟨"Label Created", now⟩]
        owner := ownerId }
    ({ st with shipments := st.shipments ++ [shipment] }, .ok shipment)

/-- Handler `POST /api/register`.  `genId` is the `nanoid()` output and
`hash` the bcrypt hash of the password; both are external inputs. -/
def register (name email password : String) (genId hash : String) (st : Store) :
    Store × Except ApiError User :=
  if email = "" ∨ password = "" then
    (st, .error (.badRequest "email & password required"))
  else if (st.users.find? (fun u => u.email == jsToLowerCase email)).isSome then
    (st, .error (.badRequest "User exists"))
  else
    let user : User :=
      { id := genId
        name := name
        email := jsToLowerCase email
        password := hash }
    ({ st with users := st.users ++ [user] }, .ok user)

/-- Iterated calls of the advance handler, threading the store. -/
def advanceIter (tracking at_ : String) : Nat → Store → Store
  | 0, st => st
  | n + 1, st => advanceIter tracking at_ n (advance tracking at_ st).1

/-- A freshly created shipment, exactly as `POST /api/shipments` builds it
for body `{toName: "Bob", toAddress: "1 Rd"}`, owner `U1` and nanoid
outputs `S1` and `trackcode1` at time `t0`. -/
def sampleFresh : Shipment :=
  { id := "S1"
    tracking := "TRACKCODE1"
    createdAt := "t0"
    status := "Label Created"
    service := "Ground"
    weight := "0.0"
    toName := "Bob"
    toAddress := "1 Rd"
    history := [⟨"Label Created", "t0"⟩]
    owner := "U1" }

/-- The data-model invariant of the spec: the history is non-empty and its
last entry's status equals the shipment's current status field. -/
def lastMatches (s : Shipment) : Prop :=
  ∃ e, s.history.getLast? = some e ∧ e.status = s.status

/-!  Helper lemmas about the ASCII case maps. -/

lemma char_toUpper_def (c : Char) :
    c.toUpper = if 97 ≤ c.toNat ∧ c.toNat ≤ 122 then Char.ofNat (c.toNat - 32) else c := rfl

lemma char_toNat_ofNat_valid {m : Nat} (h : m.isValidChar) : (Char.ofNat m).toNat = m := by
  rw [Char.ofNat, dif_pos h]
  rfl

lemma char_toNat_toUpper (c : Char) :
    c.toUpper.toNat = if 97 ≤ c.toNat ∧ c.toNat ≤ 122 then c.toNat - 32 else c.toNat := by
  rw [char_toUpper_def]
  split
  · rename_i h
    have hv : (c.toNat - 32).isValidChar := Or.inl (by omega)
    exact char_toNat_ofNat_valid hv
  · rfl

lemma char_toUpper_eq_self (c : Char) (h : ¬(97 ≤ c.toNat ∧ c.toNat ≤ 122)) :
    c.toUpper = c := by
  rw [char_toUpper_def, if_neg h]

lemma char_toUpper_idem (c : Char) : c.toUpper.toUpper = c.toUpper := by
  apply char_toUpper_eq_self
  rw [char_toNat_toUpper]
  split <;> omega

lemma char_isLower_iff (c : Char) : c.isLower = true ↔ 97 ≤ c.toNat ∧ c.toNat ≤ 122 := by
  simp [Char.isLower, UInt32.le_def, BitVec.le_def, Char.toNat, UInt32.toNat]

lemma char_isLower_toUpper (c : Char) : c.toUpper.isLower = false := by
  rw [Bool.eq_false_iff]
  intro hc
  rw [char_isLower_iff, char_toNat_toUpper] at hc
  revert hc
  split <;> omega

lemma jsToUpperCase_idem (s : String) :
    jsToUpperCase (jsToUpperCase s) = jsToUpperCase s := by
  simp [jsToUpperCase, List.map_map, Function.comp_def, char_toUpper_idem]

lemma length_jsToUpperCase (s : String) : (jsToUpperCase s).length = s.length := by
  rcases s with ⟨l⟩
  show (l.map Char.toUpper).length = l.length
  exact l.length_map Char.toUpper

lemma isLower_of_mem_jsToUpperCase (s : String) :
    ∀ c ∈ (jsToUpperCase s).data, c.isLower = false := by
  intro c hc
  simp only [jsToUpperCase, List.mem_map] at hc
  obtain ⟨d, -, rfl⟩ := hc
  exact char_isLower_toUpper d

lemma jsToLowerCase_eq_empty_iff (s : String) : jsToLowerCase s = "" ↔ s = "" := by
  constructor
  · intro h
    have hd : s.data.map Char.toLower = [] := congrArg String.data h
    rcases s with ⟨l⟩
    cases l with
    | nil => rfl
    | cons a l => simp at hd
  · rintro rfl
    rfl

/-!  Helper lemmas about the status sequence and the advance handler. -/

lemma jsIndexOf_neg_one_le (l : List String) (x : String) : -1 ≤ jsIndexOf l x := by
  unfold jsIndexOf
  split
  · omega
  · omega

lemma nextStatus_mem (cur : String) : nextStatus cur ∈ nextStatuses := by
  unfold nextStatus
  have h1 := jsIndexOf_neg_one_le nextStatuses cur
  have hlen : nextStatuses.length = 5 := rfl
  have hklt :
      (min (jsIndexOf nextStatuses cur + 1) ((nextStatuses.length : Int) - 1)).toNat
        < nextStatuses.length := by
    rw [hlen]
    omega
  rw [List.getD_eq_getElem?_getD, List.getElem?_eq_getElem hklt]
  exact List.getElem_mem hklt

lemma nextStatus_getD (i : Nat) (hi : i < 5) :
    nextStatus (nextStatuses.getD i "") = nextStatuses.getD (min (i + 1) 4) "" := by
  interval_cases i <;> decide

lemma advanceShipment_tracking (at_ : String) (s : Shipment) :
    (advanceShipment at_ s).tracking = s.tracking := rfl

lemma advanceShipment_status (at_ : String) (s : Shipment) :
    (advanceShipment at_ s).status = nextStatus s.status := rfl

lemma advanceShipment_history (at_ : String) (s : Shipment) :
    (advanceShipment at_ s).history = s.history ++ [⟨nextStatus s.status, at_⟩] := rfl

lemma advanceInList_eq_none_iff (key at_ : String) (l : List Shipment) :
    advanceInList key at_ l = none ↔ ∀ s ∈ l, s.tracking ≠ key := by
  induction l with
  | nil => simp [advanceInList]
  | cons a rest ih =>
    by_cases h : a.tracking = key
    · have hb : (a.tracking == key) = true := by simp [h]
      simp [advanceInList, hb, h]
    · have hb : (a.tracking == key) = false := by simp [h]
      cases hadv : advanceInList key at_ rest with
      | none =>
        simp only [advanceInList, hb, Bool.false_eq_true, if_false, hadv]
        simp only [List.mem_cons]
        constructor
        · intro _ s hs
          rcases hs with rfl | hs
          · exact h
          · exact (ih.mp hadv) s hs
        · intro _
          trivial
      | some p =>
        simp only [advanceInList, hb, Bool.false_eq_true, if_false, hadv]
        constructor
        · intro hcontra
          exact absurd hcontra (by simp)
        · intro hall
          have : advanceInList key at_ rest ≠ none := by
            rw [hadv]
            simp
          exact absurd (ih.mpr fun s hs => hall s (List.mem_cons_of_mem a hs)) this

lemma advanceInList_some_decomp (key at_ : String) :
    ∀ (l l2 : List Shipment) (s2 : Shipment),
      advanceInList key at_ l = some (l2, s2) →
      ∃ l₁ s l₃, l = l₁ ++ s :: l₃ ∧ (∀ x ∈ l₁, x.tracking ≠ key) ∧
        s.tracking = key ∧ s2 = advanceShipment at_ s ∧ l2 = l₁ ++ s2 :: l₃ := by
  intro l
  induction l with
  | nil => intro l2 s2 h; simp [advanceInList] at h
  | cons a rest ih =>
    intro l2 s2 h
    by_cases hk : a.tracking = key
    · have hb : (a.tracking == key) = true := by simp [hk]
      simp only [advanceInList, hb, if_true] at h
      obtain ⟨h1, h2⟩ := Prod.mk.injEq .. ▸ (Option.some.injEq .. ▸ h)
      exact ⟨[], a, rest, by simp, by simp, hk, h2.symm, by simp [← h1, h2]⟩
    · have hb : (a.tracking == key) = false := by simp [hk]
      simp only [advanceInList, hb, Bool.false_eq_true, if_false] at h
      cases hadv : advanceInList key at_ rest with
      | none => rw [hadv] at h; simp at h
      | some p =>
        rw [hadv] at h
        obtain ⟨rest1, s1⟩ := p
        simp only [Option.some.injEq, Prod.mk.injEq] at h
        obtain ⟨h1, h2⟩ := h
        obtain ⟨l₁, s, l₃, hrest, hl₁, hs, hs2, hrest1⟩ := ih rest1 s1 hadv
        refine ⟨a :: l₁, s, l₃, by rw [hrest]; rfl, ?_, hs, h2 ▸ hs2, ?_⟩
        · intro x hx
          rcases List.mem_cons.mp hx with rfl | hx
          · exact hk
          · exact hl₁ x hx
        · rw [← h1, hrest1, h2]
          rfl

/-!  Helper lemmas about iterated advance steps. -/

lemma iterate_advanceShipment_tracking (at_ : String) (n : Nat) :
    ∀ s : Shipment, ((advanceShipment at_)^[n] s).tracking = s.tracking := by
  induction n with
  | zero => intro s; rfl
  | succ n ih =>
    intro s
    rw [Function.iterate_succ_apply, ih, advanceShipment_tracking]

lemma iterate_advanceShipment_history_length (at_ : String) (n : Nat) :
    ∀ s : Shipment,
      ((advanceShipment at_)^[n] s).history.length = s.history.length + n := by
  induction n with
  | zero => intro s; rfl
  | succ n ih =>
    intro s
    rw [Function.iterate_succ_apply, ih, advanceShipment_history]
    simp
    omega

lemma iterate_advanceShipment_status (at_ : String) (n : Nat) :
    ∀ (s : Shipment) (i : Nat), i < 5 → s.status = nextStatuses.getD i "" →
      ((advanceShipment at_)^[n] s).status = nextStatuses.getD (min (i + n) 4) "" := by
  induction n with
  | zero =>
    intro s i hi hs
    have hmin : min (i + 0) 4 = i ∨ (i = 4 ∧ min (i + 0) 4 = 4) := by omega
    rcases hmin with hmin | ⟨rfl, hmin⟩ <;> rw [hmin] <;> exact hs
  | succ n ih =>
    intro s i hi hs
    rw [Function.iterate_succ_apply]
    have h1 : (advanceShipment at_ s).status = nextStatuses.getD (min (i + 1) 4) "" := by
      rw [advanceShipment_status, hs, nextStatus_getD i hi]
    have h2 := ih (advanceShipment at_ s) (min (i + 1) 4) (by omega) h1
    rw [h2]
    congr 1
    omega

lemma iterate_advanceShipment_history_mem (at_ : String) (n : Nat) :
    ∀ s : Shipment, (∀ e ∈ s.history, e.status ∈ nextStatuses) →
      ∀ e ∈ ((advanceShipment at_)^[n] s).history, e.status ∈ nextStatuses := by
  induction n with
  | zero => intro s h; exact h
  | succ n ih =>
    intro s h
    rw [Function.iterate_succ_apply]
    apply ih
    intro e he
    rw [advanceShipment_history] at he
    rcases List.mem_append.mp he with he | he
    · exact h e he
    · rcases List.mem_singleton.mp he with rfl
      exact nextStatus_mem s.status

lemma advance_singleton (us : List User) (s : Shipment) (t at_ : String)
    (ht : s.tracking = jsToUpperCase t) :
    advance t at_ (Store.mk us [s]) =
      (Store.mk us [advanceShipment at_ s], .ok (advanceShipment at_ s)) := by
  have hb : (s.tracking == jsToUpperCase t) = true := by simp [ht]
  simp [advance, advanceInList, hb]

lemma advanceIter_singleton (t at_ : String) (us : List User) (n : Nat) :
    ∀ s : Shipment, s.tracking = jsToUpperCase t →
      advanceIter t at_ n (Store.mk us [s]) =
        Store.mk us [(advanceShipment at_)^[n] s] := by
  induction n with
  | zero => intro s ht; rfl
  | succ n ih =>
    intro s ht
    have ht2 : (advanceShipment at_ s).tracking = jsToUpperCase t := by
      rw [advanceShipment_tracking]
      exact ht
    rw [advanceIter, advance_singleton us s t at_ ht, ih (advanceShipment at_ s) ht2,
      Function.iterate_succ_apply]

/-!  The claims. -/

/-- Claim C1: for every stored shipment set and tracking code, advance
fails with the 404 not-found error exactly when no shipment's tracking
code matches; otherwise it succeeds, sets the found shipment's status to
`stages[min(index(current) + 1, lastIndex)]` over the fixed five-stage
list and appends one history entry carrying the new status; in
particular, on a shipment already `"Delivered"` it still succeeds, leaves
the status `"Delivered"` and appends a duplicate `"Delivered"` entry. -/
theorem advance_spec (t at_ : String) (st : Store) :
    ((advance t at_ st).2 = .error .notFound ↔
        ∀ s ∈ st.shipments, s.tracking ≠ jsToUpperCase t) ∧
    ((∃ s ∈ st.shipments, s.tracking = jsToUpperCase t) →
        ∃ s2, (advance t at_ st).2 = .ok s2) ∧
    (∀ s2, (advance t at_ st).2 = .ok s2 →
        ∃ s ∈ st.shipments, s.tracking = jsToUpperCase t ∧
          (∀ i : Nat, i < 5 → s.status = nextStatuses.getD i "" →
            s2.status = nextStatuses.getD (min (i + 1) 4) "") ∧
          s2.history = s.history ++ [⟨s2.status, at_⟩] ∧
          (s.status = "Delivered" →
            s2.status = "Delivered" ∧
            s2.history = s.history ++ [⟨"Delivered", at_⟩])) := by
  have hnone := advanceInList_eq_none_iff (jsToUpperCase t) at_ st.shipments
  refine ⟨⟨?_, ?_⟩, ?_, ?_⟩
  · intro herr
    cases hadv : advanceInList (jsToUpperCase t) at_ st.shipments with
    | none => exact hnone.mp hadv
    | some p =>
      exfalso
      obtain ⟨l2, s2⟩ := p
      simp [advance, hadv] at herr
  · intro hall
    simp [advance, hnone.mpr hall]
  · rintro ⟨s, hs, hst⟩
    cases hadv : advanceInList (jsToUpperCase t) at_ st.shipments with
    | none => exact absurd hst (hnone.mp hadv s hs)
    | some p =>
      obtain ⟨l2, s2⟩ := p
      exact ⟨s2, by simp [advance, hadv]⟩
  · intro s2 hok
    cases hadv : advanceInList (jsToUpperCase t) at_ st.shipments with
    | none => simp [advance, hadv] at hok
    | some p =>
      obtain ⟨l2, s2x⟩ := p
      have heq : s2 = s2x := by
        have hokx : (advance t at_ st).2 = .ok s2x := by simp [advance, hadv]
        rw [hok] at hokx
        exact Except.ok.inj hokx
      subst heq
      obtain ⟨l₁, s, l₃, hl, hl₁, hs, hs2, hl2⟩ :=
        advanceInList_some_decomp (jsToUpperCase t) at_ st.shipments l2 s2 hadv
      refine ⟨s, ?_, hs, ?_, ?_, ?_⟩
      · rw [hl]
        exact List.mem_append_right _ (List.mem_cons_self s l₃)
      · intro i hi hsi
        rw [hs2, advanceShipment_status, hsi, nextStatus_getD i hi]
      · rw [hs2, advanceShipment_history, advanceShipment_status]
      · intro hdel
        rw [hs2, advanceShipment_status, advanceShipment_history, hdel]
        exact ⟨by decide, by rw [show nextStatus "Delivered" = "Delivered" from by decide]⟩

/-- Claim C4: a shipment created by the create handler starts at the first
stage of the fixed sequence, and every successful advance step moves the
matched shipment's status forward without skipping: from stage `i < 4` it
goes exactly to stage `i + 1`, and only at the last stage (`i = 4`) does
it stay unchanged; the new status always remains inside the fixed
sequence, so the status never regresses or skips. -/
theorem advance_monotone_step (t at_ : String) (st : Store) :
    (∀ ownerId toName toAddress weight service genId genTracking now s2,
        (createShipment ownerId toName toAddress weight service
            genId genTracking now st).2 = .ok s2 →
        s2.status = nextStatuses.getD 0 "") ∧
    (∀ s2, (advance t at_ st).2 = .ok s2 →
        s2.status ∈ nextStatuses ∧
        ∃ s ∈ st.shipments, s.tracking = jsToUpperCase t ∧
          ∀ i : Nat, i < 5 → s.status = nextStatuses.getD i "" →
            (i < 4 → s2.status = nextStatuses.getD (i + 1) "") ∧
            (i = 4 → s2.status = s.status)) := by
  constructor
  · intro ownerId toName toAddress weight service genId genTracking now s2 hok
    by_cases hv : toName = "" ∨ toAddress = ""
    · simp [createShipment, hv] at hok
    · simp only [createShipment, hv, if_false] at hok
      obtain rfl := Except.ok.inj hok
      rfl
  · intro s2 hok
    cases hadv : advanceInList (jsToUpperCase t) at_ st.shipments with
    | none => simp [advance, hadv] at hok
    | some p =>
      obtain ⟨l2, s2x⟩ := p
      have heq : s2 = s2x := by
        have hokx : (advance t at_ st).2 = .ok s2x := by simp [advance, hadv]
        rw [hok] at hokx
        exact Except.ok.inj hokx
      subst heq
      obtain ⟨l₁, s, l₃, hl, hl₁, hs, hs2, hl2⟩ :=
        advanceInList_some_decomp (jsToUpperCase t) at_ st.shipments l2 s2 hadv
      constructor
      · rw [hs2, advanceShipment_status]
        exact nextStatus_mem s.status
      · refine ⟨s, ?_, hs, ?_⟩
        · rw [hl]
          exact List.mem_append_right _ (List.mem_cons_self s l₃)
        · intro i hi hsi
          constructor
          · intro hi4
            rw [hs2, advanceShipment_status, hsi, nextStatus_getD i hi]
            congr 1
            omega
          · rintro rfl
            rw [hs2, advanceShipment_status, hsi, nextStatus_getD 4 hi]
            decide

/-- Claim C10: a successful advance call modifies only the first shipment
whose tracking code matches the uppercased input, replacing it in place:
the users array and every other shipment are unchanged; a failed advance
(404) leaves the whole store unchanged. -/
theorem advance_frame (t at_ : String) (st : Store) :
    (∀ s2, (advance t at_ st).2 = .ok s2 →
        (advance t at_ st).1.users = st.users ∧
        ∃ l₁ s l₃, st.shipments = l₁ ++ s :: l₃ ∧
          s.tracking = jsToUpperCase t ∧
          (∀ x ∈ l₁, x.tracking ≠ jsToUpperCase t) ∧
          (advance t at_ st).1.shipments = l₁ ++ advanceShipment at_ s :: l₃) ∧
    ((advance t at_ st).2 = .error .notFound → (advance t at_ st).1 = st) := by
  constructor
  · intro s2 hok
    cases hadv : advanceInList (jsToUpperCase t) at_ st.shipments with
    | none => simp [advance, hadv] at hok
    | some p =>
      obtain ⟨l2, s2x⟩ := p
      have heq : s2 = s2x := by
        have hokx : (advance t at_ st).2 = .ok s2x := by simp [advance, hadv]
        rw [hok] at hokx
        exact Except.ok.inj hokx
      subst heq
      obtain ⟨l₁, s, l₃, hl, hl₁, hs, hs2, hl2⟩ :=
        advanceInList_some_decomp (jsToUpperCase t) at_ st.shipments l2 s2 hadv
      refine ⟨by simp [advance, hadv], l₁, s, l₃, hl, hs, hl₁, ?_⟩
      rw [show (advance t at_ st).1.shipments = l2 from by simp [advance, hadv], hl2, hs2]
  · intro herr
    cases hadv : advanceInList (jsToUpperCase t) at_ st.shipments with
    | none => simp [advance, hadv]
    | some p =>
      exfalso
      obtain ⟨l2, s2⟩ := p
      simp [advance, hadv] at herr

/-- Claim C3: both operations that create or mutate a shipment — the
create handler and the advance handler — preserve the invariant that
every stored shipment's history is non-empty and ends with an entry whose
status equals the shipment's current status field. -/
theorem create_advance_preserve_lastMatches :
    (∀ ownerId toName toAddress weight service genId genTracking now st,
        (∀ x ∈ st.shipments, lastMatches x) →
        ∀ x ∈ (createShipment ownerId toName toAddress weight service
            genId genTracking now st).1.shipments, lastMatches x) ∧
    (∀ t at_ st, (∀ x ∈ st.shipments, lastMatches x) →
        ∀ x ∈ (advance t at_ st).1.shipments, lastMatches x) := by
  constructor
  · intro ownerId toName toAddress weight service genId genTracking now st hinv x hx
    by_cases hv : toName = "" ∨ toAddress = ""
    · rw [show (createShipment ownerId toName toAddress weight service
          genId genTracking now st).1 = st from by simp [createShipment, hv]] at hx
      exact hinv x hx
    · simp only [createShipment, hv, if_false] at hx
      rcases List.mem_append.mp hx with hx | hx
      · exact hinv x hx
      · rcases List.mem_singleton.mp hx with rfl
        exact ⟨⟨"Label Created", now⟩, rfl, rfl⟩
  · intro t at_ st hinv x hx
    cases hadv : advanceInList (jsToUpperCase t) at_ st.shipments with
    | none =>
      rw [show (advance t at_ st).1 = st from by simp [advance, hadv]] at hx
      exact hinv x hx
    | some p =>
      obtain ⟨l2, s2⟩ := p
      obtain ⟨l₁, s, l₃, hl, hl₁, hs, hs2, hl2⟩ :=
        advanceInList_some_decomp (jsToUpperCase t) at_ st.shipments l2 s2 hadv
      rw [show (advance t at_ st).1.shipments = l2 from by simp [advance, hadv], hl2] at hx
      rcases List.mem_append.mp hx with hx | hx
      · exact hinv x (hl ▸ List.mem_append_left _ hx)
      · rcases List.mem_cons.mp hx with rfl | hx
        · rw [hs2]
          exact ⟨⟨nextStatus s.status, at_⟩,
            by rw [advanceShipment_history]; exact List.getLast?_concat _, rfl⟩
        · exact hinv x (hl ▸ List.mem_append_right _ (List.mem_cons_of_mem s hx))

/-- Claim C2 as stated is refuted at N = 5: five advance calls on a
freshly created shipment (initial status `"Label Created"`, history of
length 1) do leave the status `"Delivered"`, but the history has length
6, not `min(5,4)+1 = 5`, because the fifth call appends a duplicate
`"Delivered"` entry. -/
theorem advanceIter_five_refutes_history_length :
    ¬(((advanceIter "TRACKCODE1" "t1" 5
          (Store.mk [] [sampleFresh])).shipments.getD 0 default).status = "Delivered" ∧
      ((advanceIter "TRACKCODE1" "t1" 5
          (Store.mk [] [sampleFresh])).shipments.getD 0 default).history.length
        = min 5 4 + 1) := by
  decide

/-- Claim C2 (amended): for every N ≥ 4, calling advance N times on a
freshly created shipment (initial status `"Label Created"`, history of
length 1, every history status inside the fixed stage list) leaves its
status `"Delivered"`, leaves its history length N + 1 — each call, also
at the terminal stage, appends one entry — and never produces a history
entry whose status lies outside the fixed five-stage list (in particular
never one beyond `"Delivered"`). -/
theorem advanceIter_fresh_delivered (us : List User) (s : Shipment) (t at_ : String)
    (n : Nat) (ht : s.tracking = jsToUpperCase t)
    (hs : s.status = "Label Created") (hh : s.history.length = 1)
    (hmem : ∀ e ∈ s.history, e.status ∈ nextStatuses) (hn : 4 ≤ n) :
    ∃ s3, (advanceIter t at_ n (Store.mk us [s])).shipments = [s3] ∧
      s3.status = "Delivered" ∧
      s3.history.length = n + 1 ∧
      ∀ e ∈ s3.history, e.status ∈ nextStatuses := by
  refine ⟨(advanceShipment at_)^[n] s,
    by rw [advanceIter_singleton t at_ us n s ht], ?_, ?_, ?_⟩
  · have h0 : s.status = nextStatuses.getD 0 "" := hs
    have := iterate_advanceShipment_status at_ n s 0 (by omega) h0
    rw [this, show min (0 + n) 4 = 4 from by omega]
    rfl
  · rw [iterate_advanceShipment_history_length at_ n s, hh]
    omega
  · exact iterate_advanceShipment_history_mem at_ n s hmem

/-- Witness for the amended Claim C2 at the concrete fresh sample
shipment with N = 4. -/
theorem advanceIter_fresh_delivered_witness :
    ∃ s3, (advanceIter "TRACKCODE1" "t1" 4 (Store.mk [] [sampleFresh])).shipments = [s3] ∧
      s3.status = "Delivered" ∧
      s3.history.length = 4 + 1 ∧
      ∀ e ∈ s3.history, e.status ∈ nextStatuses :=
  advanceIter_fresh_delivered [] sampleFresh "TRACKCODE1" "t1" 4
    (by decide) (by decide) (by decide) (by decide) (by decide)

/-- The register handler's conflict branch. -/
lemma register_conflict_branch (n e p id h : String) (st : Store)
    (he : ¬(e = "" ∨ p = ""))
    (hf : ((st.users.find? (fun x => x.email == jsToLowerCase e)).isSome) = true) :
    register n e p id h st = (st, .error (.badRequest "User exists")) := by
  unfold register
  rw [if_neg he, if_pos hf]

/-- The register handler's success branch. -/
lemma register_ok_branch (n e p id h : String) (st : Store)
    (he : ¬(e = "" ∨ p = ""))
    (hf : ¬(((st.users.find? (fun x => x.email == jsToLowerCase e)).isSome) = true)) :
    register n e p id h st =
      (Store.mk (st.users ++ [⟨id, n, jsToLowerCase e, h⟩]) st.shipments,
        .ok ⟨id, n, jsToLowerCase e, h⟩) := by
  unfold register
  rw [if_neg he, if_neg hf]

/-- Claim C5: for every pair of register calls carrying emails equal up to
letter case (and a password on the second call, so the earlier
missing-field check does not fire first), if the first register succeeds
then the second fails with the HTTP 400 conflict error `User exists`,
because the lowercased email already exists among stored users, and it
leaves the user set unchanged. -/
theorem register_conflict (n1 e1 p1 id1 h1 n2 e2 p2 id2 h2 : String)
    (st : Store) (u : User)
    (hcase : jsToLowerCase e1 = jsToLowerCase e2)
    (hp2 : p2 ≠ "")
    (hok : (register n1 e1 p1 id1 h1 st).2 = .ok u) :
    (register n2 e2 p2 id2 h2 (register n1 e1 p1 id1 h1 st).1).2
        = .error (.badRequest "User exists") ∧
    (register n2 e2 p2 id2 h2 (register n1 e1 p1 id1 h1 st).1).1
        = (register n1 e1 p1 id1 h1 st).1 := by
  by_cases hv1 : e1 = "" ∨ p1 = ""
  · exfalso
    simp [register, hv1] at hok
  · by_cases hf1 : ((st.users.find? (fun x => x.email == jsToLowerCase e1)).isSome) = true
    · exfalso
      rw [register_conflict_branch n1 e1 p1 id1 h1 st hv1 hf1] at hok
      exact Except.noConfusion hok
    · have hst1 := register_ok_branch n1 e1 p1 id1 h1 st hv1 hf1
      have he2 : ¬(e2 = "" ∨ p2 = "") := by
        rintro (he | hp)
        · have h1e : jsToLowerCase e1 = "" := by rw [hcase, he]; rfl
          exact hv1 (Or.inl ((jsToLowerCase_eq_empty_iff e1).mp h1e))
        · exact hp2 hp
      have hf2 : ((((register n1 e1 p1 id1 h1 st).1.users.find?
          (fun x => x.email == jsToLowerCase e2)).isSome) = true) := by
        rw [List.find?_isSome]
        refine ⟨⟨id1, n1, jsToLowerCase e1, h1⟩, ?_, by simp [hcase]⟩
        rw [show (register n1 e1 p1 id1 h1 st).1
            = Store.mk (st.users ++ [⟨id1, n1, jsToLowerCase e1, h1⟩]) st.shipments
          from congrArg Prod.fst hst1]
        exact List.mem_append_right _ (List.mem_singleton_self _)
      rw [register_conflict_branch n2 e2 p2 id2 h2 (register n1 e1 p1 id1 h1 st).1 he2 hf2]
      exact ⟨rfl, rfl⟩

/-- Witness for Claim C5: registering `a@B.com` then `A@b.CoM` against the
empty store makes the second call fail with `User exists` and leave the
store as the first call left it. -/
theorem register_conflict_witness :
    (register "B" "A@b.CoM" "y" "U2" "H2"
        (register "A" "a@B.com" "x" "U1" "H1" (Store.mk [] [])).1).2
      = .error (.badRequest "User exists") ∧
    (register "B" "A@b.CoM" "y" "U2" "H2"
        (register "A" "a@B.com" "x" "U1" "H1" (Store.mk [] [])).1).1
      = (register "A" "a@B.com" "x" "U1" "H1" (Store.mk [] [])).1 :=
  register_conflict "A" "a@B.com" "x" "U1" "H1" "B" "A@b.CoM" "y" "U2" "H2"
    (Store.mk [] [])  ⟨"U1", "A", jsToLowerCase "a@B.com", "H1"⟩
    (by decide) (by decide) (by rfl)

/-- Claim C6: the create handler fails with the 400 validation error
exactly when `toName` or `toAddress` is absent; otherwise it succeeds and
the produced shipment has status `"Label Created"`, a history of exactly
one `"Label Created"` entry, and a tracking code that is 10 characters
long whenever the generated nanoid is (its length is preserved) and that
contains no lowercase letters. -/
theorem createShipment_spec
    (ownerId toName toAddress weight service genId genTracking now : String)
    (st : Store) :
    ((createShipment ownerId toName toAddress weight service
        genId genTracking now st).2
      = .error (.badRequest "toName & toAddress required")
        ↔ toName = "" ∨ toAddress = "") ∧
    (¬(toName = "" ∨ toAddress = "") →
      ∃ s2, (createShipment ownerId toName toAddress weight service
          genId genTracking now st).2 = .ok s2) ∧
    (∀ s2, (createShipment ownerId toName toAddress weight service
        genId genTracking now st).2 = .ok s2 →
      s2.status = "Label Created" ∧
      s2.history = [⟨"Label Created", now⟩] ∧
      (genTracking.length = 10 → s2.tracking.length = 10) ∧
      (∀ c ∈ s2.tracking.data, c.isLower = false)) := by
  by_cases hv : toName = "" ∨ toAddress = ""
  · refine ⟨by simp [createShipment, hv], fun h => absurd hv h, ?_⟩
    intro s2 hok
    simp [createShipment, hv] at hok
  · refine ⟨by simp [createShipment, hv], ?_, ?_⟩
    · intro _
      exact ⟨{ id := genId, tracking := jsToUpperCase genTracking, createdAt := now,
               status := "Label Created",
               service := if service = "" then "Ground" else service,
               weight := if weight = "" then "0.0" else weight,
               toName := toName, toAddress := toAddress,
               history := [⟨"Label Created", now⟩], owner := ownerId },
        by simp [createShipment, hv]⟩
    · intro s2 hok
      simp only [createShipment, hv, if_false] at hok
      obtain rfl := Except.ok.inj hok
      refine ⟨rfl, rfl, ?_, ?_⟩
      · intro hlen
        show (jsToUpperCase genTracking).length = 10
        rw [length_jsToUpperCase, hlen]
      · exact isLower_of_mem_jsToUpperCase genTracking

/-- Claim C7: the my-shipments handler returns exactly the shipments whose
owner field equals the requesting user's id — every owned shipment
appears, no shipment of another owner appears — and they appear in
storage (insertion) order, as a sublist of the stored array. -/
theorem listForOwner_spec (uid : String) (st : Store) :
    (∀ s, s ∈ listForOwner uid st ↔ s ∈ st.shipments ∧ s.owner = uid) ∧
    (listForOwner uid st).Sublist st.shipments := by
  constructor
  · intro s
    simp [listForOwner, List.mem_filter]
  · exact List.filter_sublist st.shipments

/-- Claim C8: the public lookup either returns a stored shipment whose
tracking code equals the uppercased input or fails with the 404 not-found
error; it fails exactly when no shipment matches, never with any other
error, and its inputs are only the tracking code and the stored
shipments — no ownership or authentication data is consulted. -/
theorem lookup_spec (t : String) (st : Store) :
    ((lookup t st = .error .notFound) ↔
        ∀ s ∈ st.shipments, s.tracking ≠ jsToUpperCase t) ∧
    (∀ s, lookup t st = .ok s → s ∈ st.shipments ∧ s.tracking = jsToUpperCase t) ∧
    (∀ e, lookup t st = .error e → e = .notFound) := by
  cases hf : st.shipments.find? (fun x => x.tracking == jsToUpperCase t) with
  | none =>
    have hall := List.find?_eq_none.mp hf
    refine ⟨⟨fun _ s hs => ?_, fun _ => by simp [lookup, hf]⟩, ?_, ?_⟩
    · intro hcontra
      exact hall s hs (by simp [hcontra])
    · intro s hok
      simp [lookup, hf] at hok
    · intro e herr
      rw [show lookup t st = .error .notFound from by simp [lookup, hf]] at herr
      exact (Except.error.inj herr).symm
  | some s0 =>
    have hks : lookup t st = .ok s0 := by simp [lookup, hf]
    refine ⟨⟨fun herr => ?_, fun hall => ?_⟩, ?_, ?_⟩
    · rw [hks] at herr
      exact absurd herr (by simp)
    · exfalso
      have hmem := List.mem_of_find?_eq_some hf
      have hp := List.find?_some hf
      exact hall s0 hmem (by simpa using hp)
    · intro s hok
      rw [hks] at hok
      obtain rfl := Except.ok.inj hok
      exact ⟨List.mem_of_find?_eq_some hf, by simpa using List.find?_some hf⟩
    · intro e herr
      rw [hks] at herr
      exact absurd herr (by simp)

/-- Claim C9: lookup and advance are case-insensitive in the tracking
code: both uppercase the supplied code before comparing, and uppercasing
is idempotent, so feeding the already-uppercased code gives the same
response and the same resulting store. -/
theorem lookup_advance_case_insensitive (t at_ : String) (st : Store) :
    lookup t st = lookup (jsToUpperCase t) st ∧
    advance t at_ st = advance (jsToUpperCase t) at_ st := by
  constructor
  · unfold lookup
    rw [jsToUpperCase_idem]
  · unfold advance
    rw [jsToUpperCase_idem]

end ShippingTracker
